import Mathlib

/-!
Verification development for the jqyaml pipeline library
(go-jq-yamlformat).  The definitions below are a shallow embedding of
the library's core file (package jqyaml: New, Execute, streamingProcess,
convertVariables, runQueryWithVariables, convertToJQCompatible,
jsonEncoder, yamlEncoderWrapper) together with its options (options.go)
and error types (errors.go).  The external collaborators (the gojq
query engine and the goccy YAML encoder) are modelled as explicit
function parameters, following the spec's description of them as
external collaborators with fixed contracts.
-/

namespace JQYaml

mutual

/-- Shallow embedding of Go `interface{}` values as they appear around the
pipeline: the gojq-compatible restricted value model (nil, bool, int,
float64, `*big.Int`, string, `[]interface{}`, `map[string]interface{}`)
plus `gbad`, which stands for a value outside the restricted model whose
serialization round-trip in `convertToJQCompatible` fails (e.g. a channel
or function value).  Float64 values are carried as their 64-bit pattern;
no claim depends on float arithmetic or float textual formatting.
Fixed-width numeric widening cases of the source (int8..uint64, float32,
which widen to float64) are outside the restricted model and not needed
by any claim, so they are not given constructors. -/
inductive GoValue : Type where
  | gnil : GoValue
  | gbool (b : Bool) : GoValue
  | gint (n : Int) : GoValue
  | gfloat64 (bits : Nat) : GoValue
  | gbigint (n : Int) : GoValue
  | gstring (s : String) : GoValue
  | glist (xs : GoValueList) : GoValue
  | gmap (kvs : GoFields) : GoValue
  | gbad (tag : Nat) : GoValue

/-- Embedding of `[]interface{}` (element sequence of a Go slice). -/
inductive GoValueList : Type where
  | nil : GoValueList
  | cons (hd : GoValue) (tl : GoValueList) : GoValueList

/-- Embedding of `map[string]interface{}`.  A Go map has unique keys and
no iteration order; a `GoFields` value records the key/value pairs in the
deterministic (key-sorted) order the JSON encoder would emit them. -/
inductive GoFields : Type where
  | nil : GoFields
  | cons (key : String) (val : GoValue) (tl : GoFields) : GoFields

end

deriving instance DecidableEq for GoValue, GoValueList, GoFields

/-- The error domain of the library (errors.go) plus the opaque errors of
external collaborators.  `deadlineExceeded` models the sentinel
`context.DeadlineExceeded`; `external` models any other engine-, IO- or
user-produced error value; `configError` models the plain `fmt.Errorf`
configuration errors of New/Execute.  `queryError`, `conversionError` and
`timeoutError` model the structured error records of errors.go with their
fields. -/
inductive Err : Type where
  | deadlineExceeded : Err
  | external (tag : Nat) : Err
  | queryError (query message : String) (cause : Err) : Err
  | conversionError (value : GoValue) (typ : String) (cause : Err) : Err
  | timeoutError (duration : Int) : Err
  | configError (msg : String) : Err
deriving DecidableEq

mutual

/-- Embedding of `convertToJQCompatible` (the default value normalizer).
The source's fast path returns nil, bool, string, int, float64 and
`*big.Int` unchanged; `[]interface{}` and `map[string]interface{}` are
rebuilt element-wise (lists in order); any other value goes through the
yamlformat serialization round trip, which `gbad` models in its failing
case (the only case a claim depends on). -/
def convertToJQCompatible : GoValue → Except Err GoValue
  | .gnil => .ok .gnil
  | .gbool b => .ok (.gbool b)
  | .gint n => .ok (.gint n)
  | .gfloat64 bits => .ok (.gfloat64 bits)
  | .gbigint n => .ok (.gbigint n)
  | .gstring s => .ok (.gstring s)
  | .glist xs =>
    match convertJQList xs with
    | .error e => .error e
    | .ok ys => .ok (.glist ys)
  | .gmap kvs =>
    match convertJQFields kvs with
    | .error e => .error e
    | .ok ws => .ok (.gmap ws)
  | .gbad tag => .error (.external tag)

/-- Element-wise conversion of a `[]interface{}` value, preserving order
(the `for i, elem := range v` loop of the source). -/
def convertJQList : GoValueList → Except Err GoValueList
  | .nil => .ok .nil
  | .cons x tl =>
    match convertToJQCompatible x with
    | .error e => .error e
    | .ok y =>
      match convertJQList tl with
      | .error e => .error e
      | .ok ys => .ok (.cons y ys)

/-- Value-wise conversion of a `map[string]interface{}` value
(the `for k, val := range v` loop of the source). -/
def convertJQFields : GoFields → Except Err GoFields
  | .nil => .ok .nil
  | .cons k v tl =>
    match convertToJQCompatible v with
    | .error e => .error e
    | .ok w =>
      match convertJQFields tl with
      | .error e => .error e
      | .ok ws => .ok (.cons k w ws)

end

mutual

/-- A value is in the restricted (gojq-compatible) value model: built only
from nil, bool, int, float64, big int, string, lists and string-keyed
maps of such values. -/
def Restricted : GoValue → Bool
  | .gnil => true
  | .gbool _ => true
  | .gint _ => true
  | .gfloat64 _ => true
  | .gbigint _ => true
  | .gstring _ => true
  | .glist xs => RestrictedList xs
  | .gmap kvs => RestrictedFields kvs
  | .gbad _ => false

/-- All elements of the list are in the restricted value model. -/
def RestrictedList : GoValueList → Bool
  | .nil => true
  | .cons x tl => Restricted x && RestrictedList tl

/-- All values of the map are in the restricted value model. -/
def RestrictedFields : GoFields → Bool
  | .nil => true
  | .cons _ v tl => Restricted v && RestrictedFields tl

end

mutual

/-- On the restricted value model the normalizer is the identity. -/
def convertRestrictedId : ∀ v, Restricted v = true → convertToJQCompatible v = .ok v
  | .gnil, _ => rfl
  | .gbool _, _ => rfl
  | .gint _, _ => rfl
  | .gfloat64 _, _ => rfl
  | .gbigint _, _ => rfl
  | .gstring _, _ => rfl
  | .glist xs, h => by
    simp only [convertToJQCompatible]
    rw [convertRestrictedListId xs (by simpa [Restricted] using h)]
  | .gmap kvs, h => by
    simp only [convertToJQCompatible]
    rw [convertRestrictedFieldsId kvs (by simpa [Restricted] using h)]
  | .gbad _, h => by simp [Restricted] at h

/-- On restricted lists the element-wise conversion is the identity. -/
def convertRestrictedListId : ∀ xs, RestrictedList xs = true → convertJQList xs = .ok xs
  | .nil, _ => rfl
  | .cons x tl, h => by
    have hx : Restricted x = true := by
      have := h; simp [RestrictedList, Bool.and_eq_true] at this; exact this.1
    have htl : RestrictedList tl = true := by
      have := h; simp [RestrictedList, Bool.and_eq_true] at this; exact this.2
    simp only [convertJQList]
    rw [convertRestrictedId x hx, convertRestrictedListId tl htl]

/-- On restricted maps the value-wise conversion is the identity. -/
def convertRestrictedFieldsId : ∀ kvs, RestrictedFields kvs = true → convertJQFields kvs = .ok kvs
  | .nil, _ => rfl
  | .cons k v tl, h => by
    have hv : Restricted v = true := by
      have := h; simp [RestrictedFields, Bool.and_eq_true] at this; exact this.1
    have htl : RestrictedFields tl = true := by
      have := h; simp [RestrictedFields, Bool.and_eq_true] at this; exact this.2
    simp only [convertJQFields]
    rw [convertRestrictedId v hv, convertRestrictedFieldsId tl htl]

end

/-- One hexadecimal digit (lower case), as `encoding/json` uses in its
escape sequences. -/
def hexDigit (n : Nat) : Char :=
  if n < 10 then Char.ofNat (48 + n) else Char.ofNat (97 + (n - 10))

/-- Two-digit lower-case hex rendering of a byte value. -/
def hexByte (n : Nat) : String :=
  String.singleton (hexDigit (n / 16)) ++ String.singleton (hexDigit (n % 16))

/-- `encoding/json` string escaping for one character: quote, backslash,
the \n \r \t shorthands, \u00XX for the other control characters, the
HTML-safe escapes for angle brackets and ampersand (HTML escaping is the
default of `json.Encoder`), and  / . -/
def escapeChar (c : Char) : String :=
  if c = Char.ofNat 34 then "\\\""
  else if c = '\\' then "\\\\"
  else if c = Char.ofNat 10 then "\\n"
  else if c = Char.ofNat 13 then "\\r"
  else if c = Char.ofNat 9 then "\\t"
  else if c = '<' then "\\u003c"
  else if c = '>' then "\\u003e"
  else if c = '&' then "\\u0026"
  else if c.toNat < 32 then "\\u00" ++ hexByte c.toNat
  else if c.toNat = 8232 then "\\u2028"
  else if c.toNat = 8233 then "\\u2029"
  else String.singleton c

/-- A JSON string literal for `s` (quotes plus escaping). -/
def quoteJSON (s : String) : String :=
  "\"" ++ String.join (s.data.map escapeChar) ++ "\""

/-- Textual form of a float64 result.  `encoding/json` prints the
shortest decimal rendering of the bit pattern; that formatting is
abstracted here as an opaque token of the bit pattern, since no claim
depends on the textual form of floats. -/
def floatRepr (bits : Nat) : String :=
  "float64:" ++ toString bits

mutual

/-- Compact (single-line) JSON rendering of a result value, as produced
by `json.Encoder` without indentation: the bytes `json.Marshal` writes.
Map fields are emitted in the stored order of `GoFields`, which stands
for the key-sorted order `encoding/json` uses for Go maps. -/
def renderCompact : GoValue → String
  | .gnil => "null"
  | .gbool true => "true"
  | .gbool false => "false"
  | .gint n => toString n
  | .gfloat64 bits => floatRepr bits
  | .gbigint n => toString n
  | .gstring s => quoteJSON s
  | .glist xs => "[" ++ renderCompactItems xs ++ "]"
  | .gmap kvs => "\x7b" ++ renderCompactFields kvs ++ "\x7d"
  | .gbad tag => "bad:" ++ toString tag

/-- Comma-separated compact rendering of array elements. -/
def renderCompactItems : GoValueList → String
  | .nil => ""
  | .cons x .nil => renderCompact x
  | .cons x (.cons y tl) => renderCompact x ++ "," ++ renderCompactItems (.cons y tl)

/-- Comma-separated compact rendering of object members. -/
def renderCompactFields : GoFields → String
  | .nil => ""
  | .cons k v .nil => quoteJSON k ++ ":" ++ renderCompact v
  | .cons k v (.cons k2 v2 tl) =>
    quoteJSON k ++ ":" ++ renderCompact v ++ "," ++ renderCompactFields (.cons k2 v2 tl)

end

/-- The indentation prefix at nesting depth `d` for the pretty encoder
(`SetIndent("", "  ")`: two spaces per level). -/
def indentAt (d : Nat) : String :=
  String.join (List.replicate d "  ")

mutual

/-- Indented JSON rendering of a result value, as produced by
`json.Encoder` after `SetIndent("", "  ")`: newline-plus-indent after
each opening bracket and comma and before each closing bracket, a space
after each member colon, empty arrays and objects kept compact. -/
def renderPretty : Nat → GoValue → String
  | _, .gnil => "null"
  | _, .gbool true => "true"
  | _, .gbool false => "false"
  | _, .gint n => toString n
  | _, .gfloat64 bits => floatRepr bits
  | _, .gbigint n => toString n
  | _, .gstring s => quoteJSON s
  | _, .glist .nil => "[]"
  | d, .glist (.cons x tl) =>
    "[\n" ++ renderPrettyItems (d + 1) (.cons x tl) ++ "\n" ++ indentAt d ++ "]"
  | _, .gmap .nil => "\x7b\x7d"
  | d, .gmap (.cons k v tl) =>
    "\x7b\n" ++ renderPrettyFields (d + 1) (.cons k v tl) ++ "\n" ++ indentAt d ++ "\x7d"
  | _, .gbad tag => "bad:" ++ toString tag

/-- Indented rendering of array elements, one per line. -/
def renderPrettyItems : Nat → GoValueList → String
  | _, .nil => ""
  | d, .cons x .nil => indentAt d ++ renderPretty d x
  | d, .cons x (.cons y tl) =>
    indentAt d ++ renderPretty d x ++ ",\n" ++ renderPrettyItems d (.cons y tl)

/-- Indented rendering of object members, one per line. -/
def renderPrettyFields : Nat → GoFields → String
  | _, .nil => ""
  | d, .cons k v .nil => indentAt d ++ quoteJSON k ++ ": " ++ renderPretty d v
  | d, .cons k v (.cons k2 v2 tl) =>
    indentAt d ++ quoteJSON k ++ ": " ++ renderPretty d v ++ ",\n" ++
      renderPrettyFields d (.cons k2 v2 tl)

end

/-- State of the custom `jsonEncoder` of the source: its two style flags,
the `needNewline` field, and the bytes accumulated in the underlying
writer (a `bytes.Buffer`, so writes never fail). -/
structure JsonEncoderState : Type where
  pretty : Bool
  raw : Bool
  needNewline : Bool
  out : String
deriving DecidableEq

/-- Embedding of `newJSONEncoder(w, pretty, raw)` over an empty buffer. -/
def newJSONEncoder (pretty raw : Bool) : JsonEncoderState :=
  ⟨pretty, raw, false, ""⟩

/-- Embedding of `(*jsonEncoder).Encode`: optional leading newline when
`needNewline` is set; with raw output a string result is written
literally followed by one newline; every other result goes through the
standard JSON encoder, indented only when pretty is set and raw is not,
with the encoder's trailing newline. -/
def jsonEncoderEncode (e : JsonEncoderState) (v : GoValue) : JsonEncoderState :=
  let e := if e.needNewline then { e with out := e.out ++ "\n" } else e
  match v, e.raw with
  | .gstring s, true => { e with out := e.out ++ s ++ "\n", needNewline := false }
  | v, _ =>
    let doc := if e.pretty && !e.raw then renderPretty 0 v else renderCompact v
    { e with out := e.out ++ doc ++ "\n", needNewline := false }

/-- State of `yamlEncoderWrapper`: the document counter and the bytes
accumulated in the underlying writer. -/
structure YamlEncoderState : Type where
  documentCount : Nat
  out : String
deriving DecidableEq

/-- Embedding of `(*yamlEncoderWrapper).Encode`: writes the `---`
document separator before every document except the first, then the
YAML encoding of the value.  The goccy YAML encoder is an external
collaborator, abstracted as the `yamlDoc` rendering function. -/
def yamlEncoderEncode (yamlDoc : GoValue → String) (e : YamlEncoderState) (v : GoValue) :
    YamlEncoderState :=
  let e := if e.documentCount > 0 then { e with out := e.out ++ "---\n" } else e
  let e := { e with documentCount := e.documentCount + 1 }
  { e with out := e.out ++ yamlDoc v }

/-- Output format of `WithWriter` (type alias of `yamlformat.Format` with
the constants `FormatYAML` and `FormatJSON`). -/
inductive Format : Type where
  | yaml : Format
  | json : Format
deriving DecidableEq

/-- The encoder held by an execution configuration after the
writer-to-encoder defaulting step of Execute: a caller-supplied custom
encoder (`WithEncoder`), the built-in JSON encoder with its resolved
pretty/raw flags, or the built-in YAML encoder wrapper. -/
inductive EncoderKind : Type where
  | custom : EncoderKind
  | jsonEnc (pretty raw : Bool) : EncoderKind
  | yamlEnc : EncoderKind
deriving DecidableEq

/-- Embedding of `executeConfig`.  `encoder` holds `some .custom` when
`WithEncoder` supplied a custom encoder and is filled with a built-in
encoder kind by the writer-defaulting step; `writerSet` is whether a
writer was stored by `WithWriter`; `callback` is whether `WithCallback`
stored a per-item callback.  The variables map is carried as an
association list in the (nondeterministic) iteration order of the Go
map.  Encode-option lists are omitted: they are opaque to every claim. -/
structure ExecuteConfig : Type where
  encoder : Option EncoderKind := none
  writerSet : Bool := false
  format : Format := .yaml
  callback : Bool := false
  varsMap : List (String × GoValue) := []
  timeout : Int := 0
  compactOutputSet : Bool := false
  compactOutput : Bool := false
  rawOutput : Bool := false

/-- The execute options of options.go, as data.  `withCallback` and
`withEncoder` record only the presence of the caller's callback or
custom encoder; the behaviour of that user-supplied sink is a parameter
of `Execute` below. -/
inductive ExecOpt : Type where
  | withEncoder : ExecOpt
  | withWriter (format : Format) : ExecOpt
  | withVariables (vars : List (String × GoValue)) : ExecOpt
  | withTimeout (t : Int) : ExecOpt
  | withCallback : ExecOpt
  | withCompactJSONOutput : ExecOpt
  | withPrettyJSONOutput : ExecOpt
  | withRawJSONOutput : ExecOpt

/-- Application of one execute option to the configuration, exactly as
the closures of options.go write their fields: `WithCompactJSONOutput`
sets `compactOutputSet` and sets `compactOutput` true,
`WithPrettyJSONOutput` sets `compactOutputSet` and sets `compactOutput`
false, `WithRawJSONOutput` sets `rawOutput`; scalar fields are
overwritten, so a later option wins. -/
def applyExecOpt (c : ExecuteConfig) : ExecOpt → ExecuteConfig
  | .withEncoder => { c with encoder := some .custom }
  | .withWriter fmt => { c with writerSet := true, format := fmt }
  | .withVariables vs => { c with varsMap := vs }
  | .withTimeout t => { c with timeout := t }
  | .withCallback => { c with callback := true }
  | .withCompactJSONOutput => { c with compactOutputSet := true, compactOutput := true }
  | .withPrettyJSONOutput => { c with compactOutputSet := true, compactOutput := false }
  | .withRawJSONOutput => { c with rawOutput := true }

/-- The fresh configuration Execute builds before applying options: the
30-unit default timeout, then the pipeline-level default JSON style
(a bitmask with bit 1 = pretty, bit 2 = raw) applied as a weaker default
when the style flags are still unset (on a fresh configuration they
always are; the source checks anyway). -/
def initExecuteConfig (defaultJSONStyle : Nat) : ExecuteConfig :=
  let cfg : ExecuteConfig := { timeout := 30 }
  if defaultJSONStyle != 0 && !cfg.compactOutputSet && !cfg.rawOutput then
    { cfg with
      rawOutput := defaultJSONStyle &&& 4 != 0
      compactOutput := defaultJSONStyle &&& 2 == 0
      compactOutputSet := true }
  else cfg

/-- The configuration after Execute applies all caller options in order. -/
def resolveConfig (defaultJSONStyle : Nat) (opts : List ExecOpt) : ExecuteConfig :=
  List.foldl applyExecOpt (initExecuteConfig defaultJSONStyle) opts

/-- The writer-to-encoder defaulting step of Execute: when a writer was
stored and no encoder was, build the JSON encoder with
`pretty := !compactOutput && compactOutputSet` and the raw flag, or the
YAML encoder wrapper, according to the requested format. -/
def resolveWriterEncoder (c : ExecuteConfig) : ExecuteConfig :=
  if c.writerSet && c.encoder.isNone then
    match c.format with
    | .json =>
      { c with encoder := some (.jsonEnc (!c.compactOutput && c.compactOutputSet) c.rawOutput) }
    | .yaml => { c with encoder := some .yamlEnc }
  else c

/-- The sink-exclusivity checks of Execute, in source order: no output
method at all, then both an encoder and a callback. -/
def checkSink (c : ExecuteConfig) : Except Err Unit :=
  if c.encoder.isNone && !c.callback then
    .error (.configError "no output method specified: use WithWriter, WithEncoder, or WithCallback")
  else if c.encoder.isSome && c.callback then
    .error (.configError "cannot specify both encoder and callback")
  else .ok ()

/-- The deadline Execute derives for the engine's context: only a
positive timeout installs one (`if cfg.timeout > 0`). -/
def deadlineOf (c : ExecuteConfig) : Option Int :=
  if c.timeout > 0 then some c.timeout else none

/-- One item of the engine's lazy pull-based result sequence: a value, or
an error value surfaced in-band (gojq yields errors as items). -/
inductive IterItem : Type where
  | value (v : GoValue) : IterItem
  | error (e : Err) : IterItem
deriving DecidableEq

/-- The external query-engine collaborator (gojq): `parse` models
`gojq.Parse` on the query text, `compile` models `gojq.Compile` of the
parsed query against the variable name list (plus the pipeline's opaque
compiler options), and `run` models `Code.RunWithContext` — given the
query, the context deadline, the root value and the positional variable
values, it yields the result sequence.  Opaque engine errors are `Nat`
tags. -/
structure Engine : Type where
  parse : String → Except Nat Unit
  compile : String → List String → Except Nat Unit
  run : String → Option Int → GoValue → List String → List GoValue → List IterItem

/-- Embedding of the `pipeline` struct: query text, pipeline-level
default JSON style bitmask, and the optional custom input marshaler
(`none` = use the default marshaler built on `convertToJQCompatible`).
The opaque default-encode-option and compiler-option lists are omitted:
no claim observes them. -/
structure PipelineCfg : Type where
  query : String := ""
  defaultJSONStyle : Nat := 0
  inputMarshaler : Option (GoValue → Except Err GoValue) := none

/-- The input marshaler Execute uses: the pipeline's custom one if set,
else the default marshaler (`defaultInputMarshaler`, which for values
without the protobuf capability signature — everything in this value
model — is `convertToJQCompatible`). -/
def marshalOf (p : PipelineCfg) : GoValue → Except Err GoValue :=
  p.inputMarshaler.getD convertToJQCompatible

/-- The pipeline-construction options of options.go that affect the
embedded state.  `withInputMarshaler none` models passing a nil
marshaler. -/
inductive POpt : Type where
  | withQuery (q : String) : POpt
  | withInputMarshaler (m : Option (GoValue → Except Err GoValue)) : POpt

/-- Application of one construction option (each may fail, per the
`Option func(*pipeline) error` contract): `WithInputMarshaler` rejects a
nil marshaler. -/
def applyPOpt (p : PipelineCfg) : POpt → Except Err PipelineCfg
  | .withQuery q => .ok { p with query := q }
  | .withInputMarshaler none => .error (.configError "input marshaler cannot be nil")
  | .withInputMarshaler (some f) => .ok { p with inputMarshaler := some f }

/-- Left-to-right application of the construction options, stopping at
the first failing option as `New` does. -/
def applyPOpts : PipelineCfg → List POpt → Except Err PipelineCfg
  | p, [] => .ok p
  | p, o :: rest =>
    match applyPOpt p o with
    | .error e => .error e
    | .ok p2 => applyPOpts p2 rest

/-- Embedding of `New`: apply the options in order; if the resulting
query text is non-empty, parse it, and on failure return the
`QueryError` with the query text, the fixed message and the cause —
returning no pipeline.  Compilation is deferred to execution. -/
def New (eng : Engine) (opts : List POpt) : Except Err PipelineCfg :=
  match applyPOpts {} opts with
  | .error e => .error e
  | .ok p =>
    if p.query != "" then
      match eng.parse p.query with
      | .error c => .error (.queryError p.query "failed to parse query" (.external c))
      | .ok _ => .ok p
    else .ok p

/-- The `for k, v := range variables` loop of `convertVariables`: every
variable value is converted with the active marshaler, a failure being
wrapped as a `ConversionError` labelled with the variable name. -/
def convertVariablesLoop (marshal : GoValue → Except Err GoValue) :
    List (String × GoValue) → Except Err (List (String × GoValue))
  | [] => .ok []
  | (k, v) :: rest =>
    match marshal v with
    | .error e => .error (.conversionError v ("variable " ++ k) e)
    | .ok w =>
      match convertVariablesLoop marshal rest with
      | .error e => .error e
      | .ok ws => .ok ((k, w) :: ws)

/-- Embedding of `convertVariables`: an empty map yields nil; otherwise
the conversion loop runs.  The association list carries the map's
iteration order. -/
def convertVariables (marshal : GoValue → Except Err GoValue) :
    List (String × GoValue) → Except Err (List (String × GoValue))
  | [] => .ok []
  | kvs => convertVariablesLoop marshal kvs

/-- Lookup in the association-list view of a Go map (`variables[key]`). -/
def lookupAssoc (k : String) : List (String × GoValue) → Option GoValue
  | [] => none
  | (k2, v) :: rest => if k2 = k then some v else lookupAssoc k rest

/-- The variable-name list `runQueryWithVariables` compiles against: each
key prefixed with a dollar sign, then sorted lexicographically
(`sort.Strings`); empty when the map is empty. -/
def jqVarNames (vars : List (String × GoValue)) : List String :=
  if vars.length > 0 then
    List.insertionSort (· ≤ ·) (vars.map (fun kv => "$" ++ kv.1))
  else []

/-- The positional variable values: for each sorted name, the dollar sign
is stripped and the value looked up in the map.  (Every name came from
the map, so the lookup always succeeds; `gnil` is a vacuous default.) -/
def jqVarValues (vars : List (String × GoValue)) : List GoValue :=
  (jqVarNames vars).map (fun name => (lookupAssoc (name.drop 1) vars).getD .gnil)

/-- Embedding of `runQueryWithVariables`: re-parse is implicit (it was
validated in New), the sorted, dollar-prefixed variable names are
computed, the query is compiled against them, a compile failure yields a
one-item error sequence (`errorIter`) wrapping a `QueryError`, and
otherwise the engine runs with the data and the positional values. -/
def runQueryWithVariables (eng : Engine) (query : String) (deadline : Option Int)
    (data : GoValue) (vars : List (String × GoValue)) : List IterItem :=
  let varNames := jqVarNames vars
  let varValues := jqVarValues vars
  match eng.compile query varNames with
  | .error c =>
    [.error (.queryError query "failed to compile query" (.external c))]
  | .ok _ => eng.run query deadline data varNames varValues

/-- The result-streaming loop of `streamingProcess`, generic in the sink
state: each item is pulled in order; an error item ends the call —
`context.DeadlineExceeded` as a `TimeoutError` carrying the configured
timeout, anything else wrapped as an execution `QueryError`; a value item
is delivered to the sink, whose error ends the call verbatim.  The
second component is the trace of values delivered to the sink. -/
def streamLoop {γ : Type} (sink : γ → GoValue → Except Err γ) (query : String)
    (timeout : Int) : List IterItem → γ → Except Err γ × List GoValue
  | [], s => (.ok s, [])
  | .error e :: _, _ =>
    if e = .deadlineExceeded then (.error (.timeoutError timeout), [])
    else (.error (.queryError query "execution error" e), [])
  | .value v :: rest, s =>
    match sink s v with
    | .error err => (.error err, [v])
    | .ok s2 =>
      let r := streamLoop sink query timeout rest s2
      (r.1, v :: r.2)

/-- Embedding of `streamingProcess`: with no query the converted input is
delivered to the sink as the single result (variables are never
converted); otherwise the variables are converted with the same
marshaler and the engine's result sequence is streamed. -/
def streamingProcess {γ : Type} (eng : Engine) (query : String) (deadline : Option Int)
    (data : GoValue) (vars : List (String × GoValue))
    (marshal : GoValue → Except Err GoValue)
    (sink : γ → GoValue → Except Err γ) (s0 : γ) (timeout : Int) :
    Except Err γ × List GoValue :=
  if query = "" then
    match sink s0 data with
    | .error e => (.error e, [data])
    | .ok s => (.ok s, [data])
  else
    match convertVariables marshal vars with
    | .error e => (.error e, [])
    | .ok convertedVars =>
      streamLoop sink query timeout (runQueryWithVariables eng query deadline data convertedVars) s0

/-- The sink state of one Execute call: the built-in JSON encoder, the
built-in YAML encoder wrapper, or the state of the caller's own sink
(per-item callback or custom encoder), of caller-chosen type. -/
inductive RunState (γ : Type) : Type where
  | json (st : JsonEncoderState) : RunState γ
  | yaml (st : YamlEncoderState) : RunState γ
  | user (st : γ) : RunState γ

/-- The per-item delivery function Execute hands to `streamingProcess`:
the built-in encoders never fail (buffer writer); the caller's sink may
fail, and its error passes through unchanged. -/
def runStateSink {γ : Type} (yamlDoc : GoValue → String)
    (userSink : γ → GoValue → Except Err γ) :
    RunState γ → GoValue → Except Err (RunState γ)
  | .json st, v => .ok (.json (jsonEncoderEncode st v))
  | .yaml st, v => .ok (.yaml (yamlEncoderEncode yamlDoc st v))
  | .user st, v => (userSink st v).map .user

/-- The initial sink state of one Execute call: the caller's sink when a
callback is configured, the built-in encoder when the writer-defaulting
step produced one, or the caller's custom encoder. -/
def initRunState {γ : Type} (cfg : ExecuteConfig) (userInit : γ) : RunState γ :=
  if cfg.callback then .user userInit
  else
    match cfg.encoder with
    | some (.jsonEnc pretty raw) => .json (newJSONEncoder pretty raw)
    | some .yamlEnc => .yaml ⟨0, ""⟩
    | _ => .user userInit

/-- Embedding of `Execute`: build the configuration (default timeout 30,
pipeline default JSON style, caller options in order), default the
writer to a built-in encoder, check sink exclusivity, derive the
deadline, convert the input with the active marshaler (failure wrapped
as a `ConversionError` with target "jq-compatible"), and stream.  The
user-supplied callback/custom-encoder behaviour is the `userSink`
parameter with initial state `userInit`; the result is paired with the
trace of values delivered to the sink. -/
def Execute {γ : Type} (eng : Engine) (yamlDoc : GoValue → String) (p : PipelineCfg)
    (userSink : γ → GoValue → Except Err γ) (userInit : γ)
    (input : GoValue) (opts : List ExecOpt) :
    Except Err (RunState γ) × List GoValue :=
  let cfg := resolveWriterEncoder (resolveConfig p.defaultJSONStyle opts)
  match checkSink cfg with
  | .error e => (.error e, [])
  | .ok _ =>
    let deadline := deadlineOf cfg
    let marshal := marshalOf p
    match marshal input with
    | .error e => (.error (.conversionError input "jq-compatible" e), [])
    | .ok jsonData =>
      streamingProcess eng p.query deadline jsonData cfg.varsMap marshal
        (runStateSink yamlDoc userSink) (initRunState cfg userInit) cfg.timeout

/-- An engine whose run yields a fixed result sequence: parsing and
compilation always succeed.  Used to instantiate the engine collaborator
in theorems about result streaming. -/
def listEngine (items : List IterItem) : Engine :=
  ⟨fun _ => .ok (), fun _ _ => .ok (), fun _ _ _ _ _ => items⟩

/-- The bytes a successful Execute call left in the writer (empty for a
user sink or a failed call).  Claims about output bytes are stated
through this projection. -/
def writtenBytes {γ : Type} (r : Except Err (RunState γ) × List GoValue) : String :=
  match r.1 with
  | .ok (.json st) => st.out
  | .ok (.yaml st) => st.out
  | _ => ""


/-- Running a sink over a list of values, stopping at the first error
(the shape of successful prefix consumption in the streaming loop). -/
def sinkFold {γ : Type} (sink : γ → GoValue → Except Err γ) : γ → List GoValue → Except Err γ
  | s, [] => .ok s
  | s, v :: vs =>
    match sink s v with
    | .error e => .error e
    | .ok s2 => sinkFold sink s2 vs

lemma initExecuteConfig_base (s : Nat) :
    (initExecuteConfig s).encoder = none ∧ (initExecuteConfig s).writerSet = false ∧
    (initExecuteConfig s).callback = false ∧ (initExecuteConfig s).varsMap = [] ∧
    (initExecuteConfig s).timeout = 30 ∧ (initExecuteConfig s).format = .yaml := by
  simp only [initExecuteConfig]
  split <;> exact ⟨rfl, rfl, rfl, rfl, rfl, rfl⟩

lemma resolveWriterEncoder_no_writer (c : ExecuteConfig) (h : c.writerSet = false) :
    resolveWriterEncoder c = c := by
  simp [resolveWriterEncoder, h]

/-- The streaming loop consumes a run of value items that the sink
accepts, prefixing them to the trace. -/
lemma streamLoop_ok_run {γ : Type} (sink : γ → GoValue → Except Err γ) (q : String)
    (t : Int) : ∀ (pre : List GoValue) (s s2 : γ), sinkFold sink s pre = .ok s2 →
    ∀ rest, streamLoop sink q t (pre.map .value ++ rest) s =
      ((streamLoop sink q t rest s2).1, pre ++ (streamLoop sink q t rest s2).2) := by
  intro pre
  induction pre with
  | nil =>
    intro s s2 h rest
    simp only [sinkFold] at h
    cases h
    simp
  | cons v vs ih =>
    intro s s2 h rest
    simp only [sinkFold] at h
    cases hsv : sink s v with
    | error e => rw [hsv] at h; exact absurd h (by simp)
    | ok s3 =>
      rw [hsv] at h
      have h2 : sinkFold sink s3 vs = .ok s2 := h
      simp only [List.map_cons, List.cons_append, streamLoop, hsv, List.append_eq]
      rw [ih s3 s2 h2 rest]

/-- A sink failure ends the loop with that error, the failing value being
the last one delivered. -/
lemma streamLoop_sink_error {γ : Type} (sink : γ → GoValue → Except Err γ) (q : String)
    (t : Int) (v : GoValue) (rest : List IterItem) (s : γ) (e : Err)
    (h : sink s v = .error e) :
    streamLoop sink q t (.value v :: rest) s = (.error e, [v]) := by
  simp only [streamLoop, h]

/-- A deadline-exceeded error item ends the loop with a `TimeoutError`
carrying the configured timeout. -/
lemma streamLoop_deadline {γ : Type} (sink : γ → GoValue → Except Err γ) (q : String)
    (t : Int) (rest : List IterItem) (s : γ) :
    streamLoop sink q t (.error .deadlineExceeded :: rest) s =
      (.error (.timeoutError t), []) := by
  simp [streamLoop]

/-- A run of value items all accepted by an infallible sink is consumed
completely, the final state being the fold of the sink. -/
lemma streamLoop_total {γ : Type} (sink : γ → GoValue → Except Err γ) (q : String)
    (t : Int) (step : γ → GoValue → γ) (hstep : ∀ s v, sink s v = .ok (step s v)) :
    ∀ (vs : List GoValue) (s : γ),
    streamLoop sink q t (vs.map .value) s = (.ok (vs.foldl step s), vs) := by
  intro vs
  induction vs with
  | nil => intro s; simp [streamLoop]
  | cons v tl ih =>
    intro s
    simp only [List.map_cons, streamLoop, hstep, List.foldl_cons]
    rw [ih (step s v)]

/-- C9: For every value already in the restricted value model (null,
bool, string, machine int, 64-bit float, arbitrary-precision integer,
and lists / string-keyed maps built only from such values), the default
normalizer `convertToJQCompatible` returns an equal value: it is the
identity on scalars and normalizes lists and maps element-wise,
preserving list order. -/
theorem c9_normalizer_identity_on_restricted (v : GoValue) (h : Restricted v = true) :
    convertToJQCompatible v = .ok v :=
  convertRestrictedId v h

theorem c9_normalizer_identity_on_restricted_witness :
    Restricted (.gmap (.cons "a" (.glist (.cons (.gint 3) (.cons (.gstring "x") .nil))) .nil))
        = true ∧
    convertToJQCompatible
        (.gmap (.cons "a" (.glist (.cons (.gint 3) (.cons (.gstring "x") .nil))) .nil)) =
      .ok (.gmap (.cons "a" (.glist (.cons (.gint 3) (.cons (.gstring "x") .nil))) .nil)) :=
  ⟨by decide, c9_normalizer_identity_on_restricted _ (by decide)⟩

/-- C4: For every option list given to New: if the configured query text
is non-empty and fails to parse, New returns a `QueryError` carrying the
query text, the message "failed to parse query" and the underlying
cause, and returns no pipeline; if the query text is empty or parses
successfully (and no option itself fails), New returns the configured
pipeline and no error. -/
theorem c4_new_parse_validation (eng : Engine) (opts : List POpt) (p : PipelineCfg)
    (hp : applyPOpts {} opts = .ok p) :
    (∀ c : Nat, p.query ≠ "" → eng.parse p.query = .error c →
        New eng opts = .error (.queryError p.query "failed to parse query" (.external c))) ∧
    (p.query = "" → New eng opts = .ok p) ∧
    (∀ u : Unit, eng.parse p.query = .ok u → New eng opts = .ok p) := by
  refine ⟨?_, ?_, ?_⟩
  · intro c hq hparse
    simp only [New, hp]
    rw [if_pos (by simpa [bne_iff_ne] using hq), hparse]
  · intro hq
    simp only [New, hp]
    rw [if_neg (by simp [hq])]
  · intro u hparse
    simp only [New, hp]
    by_cases hq : p.query = ""
    · rw [if_neg (by simp [hq])]
    · rw [if_pos (by simpa [bne_iff_ne] using hq), hparse]

/-- An engine whose parser always rejects, with error tag 3. -/
def parseFailEngine : Engine :=
  ⟨fun _ => .error 3, fun _ _ => .ok (), fun _ _ _ _ _ => []⟩

theorem c4_new_parse_validation_witness :
    applyPOpts {} [POpt.withQuery "(("] = .ok { query := "((" } ∧
    ("((" : String) ≠ "" ∧
    New parseFailEngine [POpt.withQuery "(("] =
      .error (.queryError "((" "failed to parse query" (.external 3)) :=
  ⟨rfl, by decide,
    (c4_new_parse_validation parseFailEngine [POpt.withQuery "(("] { query := "((" } rfl).1
      3 (by decide) rfl⟩

/-- C5: For every Execute call, after option application and
writer-to-encoder defaulting, Execute fails with a configuration error
if neither an encoder/writer nor a callback was set, and also fails with
a configuration error if both an encoder (or writer) and a callback were
set; the sink check passes exactly when one output mode is active. -/
theorem c5_sink_exclusivity {γ : Type} (eng : Engine) (yamlDoc : GoValue → String)
    (p : PipelineCfg) (userSink : γ → GoValue → Except Err γ) (userInit : γ)
    (input : GoValue) (opts : List ExecOpt) :
    ((resolveWriterEncoder (resolveConfig p.defaultJSONStyle opts)).encoder = none →
      (resolveWriterEncoder (resolveConfig p.defaultJSONStyle opts)).callback = false →
      Execute eng yamlDoc p userSink userInit input opts =
        (.error (.configError
          "no output method specified: use WithWriter, WithEncoder, or WithCallback"), [])) ∧
    (∀ k, (resolveWriterEncoder (resolveConfig p.defaultJSONStyle opts)).encoder = some k →
      (resolveWriterEncoder (resolveConfig p.defaultJSONStyle opts)).callback = true →
      Execute eng yamlDoc p userSink userInit input opts =
        (.error (.configError "cannot specify both encoder and callback"), [])) ∧
    (checkSink (resolveWriterEncoder (resolveConfig p.defaultJSONStyle opts)) = .ok () ↔
      ((∃ k, (resolveWriterEncoder (resolveConfig p.defaultJSONStyle opts)).encoder = some k) ∧
        (resolveWriterEncoder (resolveConfig p.defaultJSONStyle opts)).callback = false) ∨
      ((resolveWriterEncoder (resolveConfig p.defaultJSONStyle opts)).encoder = none ∧
        (resolveWriterEncoder (resolveConfig p.defaultJSONStyle opts)).callback = true)) := by
  refine ⟨?_, ?_, ?_⟩
  · intro h1 h2
    simp [Execute, checkSink, h1, h2]
  · intro k h1 h2
    simp [Execute, checkSink, h1, h2]
  · cases hE : (resolveWriterEncoder (resolveConfig p.defaultJSONStyle opts)).encoder with
    | none =>
      cases hC : (resolveWriterEncoder (resolveConfig p.defaultJSONStyle opts)).callback <;>
        simp [checkSink, hE, hC]
    | some k =>
      cases hC : (resolveWriterEncoder (resolveConfig p.defaultJSONStyle opts)).callback <;>
        simp [checkSink, hE, hC]

theorem c5_sink_exclusivity_witness :
    (resolveWriterEncoder (resolveConfig 0 [])).encoder = none ∧
    (resolveWriterEncoder (resolveConfig 0 [])).callback = false ∧
    Execute (listEngine []) (fun _ => "") {} (fun (_ : Unit) _ => .ok ()) () .gnil [] =
      (.error (.configError
        "no output method specified: use WithWriter, WithEncoder, or WithCallback"), []) :=
  ⟨by decide, by decide,
    (c5_sink_exclusivity (listEngine []) (fun _ => "") {} (fun (_ : Unit) _ => .ok ()) ()
        .gnil []).1 (by decide) (by decide)⟩

/-- The initial configuration is the fresh default, with the style flags
possibly preset from the pipeline default style. -/
lemma initExecuteConfig_cases (s : Nat) :
    initExecuteConfig s = { timeout := 30 } ∨
    initExecuteConfig s = { timeout := 30, compactOutputSet := true,
                            compactOutput := s &&& 2 == 0, rawOutput := s &&& 4 != 0 } := by
  simp only [initExecuteConfig]
  split
  · right; rfl
  · left; rfl

/-- Execute with a per-item callback and a variables map reduces to
input conversion followed by the streaming process (default timeout 30,
deadline installed). -/
lemma execute_callback_vars_reduce {γ : Type} (eng : Engine) (yamlDoc : GoValue → String)
    (p : PipelineCfg) (userSink : γ → GoValue → Except Err γ) (userInit : γ)
    (input : GoValue) (vars : List (String × GoValue)) :
    Execute eng yamlDoc p userSink userInit input [.withCallback, .withVariables vars] =
      (match marshalOf p input with
       | .error e => (.error (.conversionError input "jq-compatible" e), [])
       | .ok jsonData =>
         streamingProcess eng p.query (some 30) jsonData vars (marshalOf p)
           (runStateSink yamlDoc userSink) (.user userInit) 30) := by
  rcases initExecuteConfig_cases p.defaultJSONStyle with h | h <;>
    simp only [Execute, resolveConfig, List.foldl, h, applyExecOpt] <;> rfl

/-- Execute with only a per-item callback: as above with no variables. -/
lemma execute_callback_reduce {γ : Type} (eng : Engine) (yamlDoc : GoValue → String)
    (p : PipelineCfg) (userSink : γ → GoValue → Except Err γ) (userInit : γ)
    (input : GoValue) :
    Execute eng yamlDoc p userSink userInit input [.withCallback] =
      (match marshalOf p input with
       | .error e => (.error (.conversionError input "jq-compatible" e), [])
       | .ok jsonData =>
         streamingProcess eng p.query (some 30) jsonData [] (marshalOf p)
           (runStateSink yamlDoc userSink) (.user userInit) 30) := by
  rcases initExecuteConfig_cases p.defaultJSONStyle with h | h <;>
    simp only [Execute, resolveConfig, List.foldl, h, applyExecOpt] <;> rfl

/-- Execute with a callback and an explicit timeout: the deadline is
installed only for a positive timeout, and the configured duration is
what the streaming process receives. -/
lemma execute_callback_timeout_reduce {γ : Type} (eng : Engine) (yamlDoc : GoValue → String)
    (p : PipelineCfg) (userSink : γ → GoValue → Except Err γ) (userInit : γ)
    (input : GoValue) (t : Int) :
    Execute eng yamlDoc p userSink userInit input [.withCallback, .withTimeout t] =
      (match marshalOf p input with
       | .error e => (.error (.conversionError input "jq-compatible" e), [])
       | .ok jsonData =>
         streamingProcess eng p.query (if t > 0 then some t else none) jsonData []
           (marshalOf p) (runStateSink yamlDoc userSink) (.user userInit) t) := by
  rcases initExecuteConfig_cases p.defaultJSONStyle with h | h <;>
    simp only [Execute, resolveConfig, List.foldl, h, applyExecOpt] <;> rfl

/-- C10: For every Execute call on a pipeline whose query text is empty,
the sink is invoked exactly once, with the converted input, and variable
bindings are never converted: even a variables map containing values
whose conversion would fail causes no error, and Execute succeeds
whenever input conversion and the single sink invocation succeed. -/
theorem c10_empty_query_single_delivery {γ : Type} (eng : Engine)
    (yamlDoc : GoValue → String) (p : PipelineCfg) (hq : p.query = "")
    (userSink : γ → GoValue → Except Err γ) (userInit : γ) (input : GoValue)
    (vars : List (String × GoValue)) (d : GoValue) (hconv : marshalOf p input = .ok d) :
    Execute eng yamlDoc p userSink userInit input [.withCallback, .withVariables vars] =
      (match userSink userInit d with
       | .ok s => (.ok (.user s), [d])
       | .error e => (.error e, [d])) := by
  rw [execute_callback_vars_reduce, hconv]
  show streamingProcess eng p.query (some 30) d vars (marshalOf p)
      (runStateSink yamlDoc userSink) (.user userInit) 30 = _
  rw [hq]
  simp only [streamingProcess, if_pos rfl, runStateSink]
  cases h : userSink userInit d with
  | ok s => simp [h, Except.map]
  | error e => simp [h, Except.map]

/-- The output the YAML encoder wrapper appends for the second and later
documents of one call: a separator immediately before each document. -/
def yamlTail (yamlDoc : GoValue → String) : List GoValue → String
  | [] => ""
  | u :: us => "---\n" ++ yamlDoc u ++ yamlTail yamlDoc us

lemma yamlEncodeMany_pos (yamlDoc : GoValue → String) :
    ∀ (vs : List GoValue) (st : YamlEncoderState), 0 < st.documentCount →
    vs.foldl (yamlEncoderEncode yamlDoc) st =
      ⟨st.documentCount + vs.length, st.out ++ yamlTail yamlDoc vs⟩ := by
  intro vs
  induction vs with
  | nil => intro st h; cases st; simp [yamlTail, String.append_empty]
  | cons u us ih =>
    intro st h
    have hstep : yamlEncoderEncode yamlDoc st u =
        ⟨st.documentCount + 1, st.out ++ "---\n" ++ yamlDoc u⟩ := by
      simp [yamlEncoderEncode, h]
    rw [List.foldl_cons, hstep, ih ⟨st.documentCount + 1, st.out ++ "---\n" ++ yamlDoc u⟩
      (by simp)]
    simp only [YamlEncoderState.mk.injEq, List.length_cons]
    refine ⟨by omega, ?_⟩
    simp [yamlTail, String.append_assoc]

lemma yamlEncodeMany_zero (yamlDoc : GoValue → String) (v : GoValue) (vs : List GoValue) :
    (v :: vs).foldl (yamlEncoderEncode yamlDoc) ⟨0, ""⟩ =
      ⟨vs.length + 1, yamlDoc v ++ yamlTail yamlDoc vs⟩ := by
  have hstep : yamlEncoderEncode yamlDoc ⟨0, ""⟩ v = ⟨1, yamlDoc v⟩ := by
    simp [yamlEncoderEncode, String.empty_append]
  rw [List.foldl_cons, hstep, yamlEncodeMany_pos yamlDoc vs ⟨1, yamlDoc v⟩ (by simp)]
  simp only [YamlEncoderState.mk.injEq]
  refine ⟨by omega, by simp⟩

/-- The streaming loop over the built-in YAML encoder consumes every
value item (the buffer writer never fails), folding the encoder. -/
lemma streamLoop_yaml {γ : Type} (yamlDoc : GoValue → String)
    (userSink : γ → GoValue → Except Err γ) (q : String) (t : Int) :
    ∀ (vs : List GoValue) (st : YamlEncoderState),
    streamLoop (runStateSink yamlDoc userSink) q t (vs.map .value) (.yaml st) =
      (.ok (.yaml (vs.foldl (yamlEncoderEncode yamlDoc) st)), vs) := by
  intro vs
  induction vs with
  | nil => intro st; simp [streamLoop]
  | cons v tl ih =>
    intro st
    simp only [List.map_cons, streamLoop, runStateSink, List.foldl_cons]
    rw [ih (yamlEncoderEncode yamlDoc st v)]

/-- Execute with a YAML writer reduces to streaming into a fresh YAML
encoder wrapper (document counter zero, empty buffer). -/
lemma execute_writer_yaml_reduce {γ : Type} (eng : Engine) (yamlDoc : GoValue → String)
    (p : PipelineCfg) (userSink : γ → GoValue → Except Err γ) (userInit : γ)
    (input : GoValue) :
    Execute eng yamlDoc p userSink userInit input [.withWriter .yaml] =
      (match marshalOf p input with
       | .error e => (.error (.conversionError input "jq-compatible" e), [])
       | .ok jsonData =>
         streamingProcess eng p.query (some 30) jsonData [] (marshalOf p)
           (runStateSink yamlDoc userSink) (.yaml ⟨0, ""⟩) 30) := by
  rcases initExecuteConfig_cases p.defaultJSONStyle with h | h <;>
    simp only [Execute, resolveConfig, List.foldl, h, applyExecOpt] <;> rfl

/-- C7: For every Execute call with a YAML writer sink that delivers
N results (here 1 + vs.length), the output is the first document
followed, for each subsequent document, by the separator and that
document: exactly N-1 separators, each immediately before the second and
subsequent documents, never before the first and never after the last. -/
theorem c7_yaml_separators {γ : Type} (yamlDoc : GoValue → String) (p : PipelineCfg)
    (hq : p.query ≠ "") (userSink : γ → GoValue → Except Err γ) (userInit : γ)
    (input : GoValue) (d : GoValue) (hconv : marshalOf p input = .ok d)
    (v : GoValue) (vs : List GoValue) :
    Execute (listEngine ((v :: vs).map .value)) yamlDoc p userSink userInit input
        [.withWriter .yaml] =
      (.ok (.yaml ⟨vs.length + 1, yamlDoc v ++ yamlTail yamlDoc vs⟩), v :: vs) := by
  rw [execute_writer_yaml_reduce, hconv]
  show streamingProcess _ p.query (some 30) d [] (marshalOf p)
      (runStateSink yamlDoc userSink) (.yaml ⟨0, ""⟩) 30 = _
  simp only [streamingProcess, if_neg hq]
  show streamLoop (runStateSink yamlDoc userSink) p.query 30 ((v :: vs).map .value)
      (.yaml ⟨0, ""⟩) = _
  rw [streamLoop_yaml, yamlEncodeMany_zero]

theorem c7_yaml_separators_witness :
    (("." : String) ≠ "") ∧
    marshalOf { query := "." } .gnil = .ok .gnil ∧
    Execute (listEngine [.value (.gint 1), .value (.gint 2), .value (.gint 3)])
        (fun u => renderCompact u ++ "\n") { query := "." } (fun (_ : Unit) _ => .ok ()) ()
        .gnil [.withWriter .yaml] =
      (.ok (.yaml ⟨3, "1\n---\n2\n---\n3\n"⟩), [.gint 1, .gint 2, .gint 3]) :=
  ⟨by decide, rfl,
    c7_yaml_separators (fun u => renderCompact u ++ "\n") { query := "." } (by decide)
      (fun (_ : Unit) _ => .ok ()) () .gnil .gnil rfl (.gint 1) [.gint 2, .gint 3]⟩

/-- What one delivered result contributes to raw JSON output: a string
result is written literally with one trailing newline; every other
result is its compact single-line JSON with the encoder newline. -/
def rawRender (v : GoValue) : String :=
  match v with
  | .gstring s => s ++ "\n"
  | v => renderCompact v ++ "\n"

/-- Concatenated raw output of a result sequence. -/
def rawRenderAll : List GoValue → String
  | [] => ""
  | v :: tl => rawRender v ++ rawRenderAll tl

lemma jsonEncoderEncode_raw (pretty : Bool) (out : String) (v : GoValue) :
    jsonEncoderEncode ⟨pretty, true, false, out⟩ v =
      ⟨pretty, true, false, out ++ rawRender v⟩ := by
  cases v <;> simp [jsonEncoderEncode, rawRender, String.append_assoc]

lemma jsonEncodeMany_raw (pretty : Bool) :
    ∀ (vs : List GoValue) (out : String),
    vs.foldl jsonEncoderEncode ⟨pretty, true, false, out⟩ =
      ⟨pretty, true, false, out ++ rawRenderAll vs⟩ := by
  intro vs
  induction vs with
  | nil => intro out; simp [rawRenderAll, String.append_empty]
  | cons v tl ih =>
    intro out
    rw [List.foldl_cons, jsonEncoderEncode_raw, ih]
    simp [rawRenderAll, String.append_assoc]

/-- The streaming loop over the built-in JSON encoder consumes every
value item (the buffer writer never fails), folding the encoder. -/
lemma streamLoop_json {γ : Type} (yamlDoc : GoValue → String)
    (userSink : γ → GoValue → Except Err γ) (q : String) (t : Int) :
    ∀ (vs : List GoValue) (st : JsonEncoderState),
    streamLoop (runStateSink yamlDoc userSink) q t (vs.map .value) (.json st) =
      (.ok (.json (vs.foldl jsonEncoderEncode st)), vs) := by
  intro vs
  induction vs with
  | nil => intro st; simp [streamLoop]
  | cons v tl ih =>
    intro st
    simp only [List.map_cons, streamLoop, runStateSink, List.foldl_cons]
    rw [ih (jsonEncoderEncode st v)]

/-- Execute with a JSON writer and raw output (no explicit
compact/pretty request, pipeline default style 0) reduces to streaming
into a fresh JSON encoder with pretty resolved false and raw true. -/
lemma execute_writer_json_raw_reduce {γ : Type} (eng : Engine) (yamlDoc : GoValue → String)
    (p : PipelineCfg) (hstyle : p.defaultJSONStyle = 0)
    (userSink : γ → GoValue → Except Err γ) (userInit : γ) (input : GoValue) :
    Execute eng yamlDoc p userSink userInit input [.withWriter .json, .withRawJSONOutput] =
      (match marshalOf p input with
       | .error e => (.error (.conversionError input "jq-compatible" e), [])
       | .ok jsonData =>
         streamingProcess eng p.query (some 30) jsonData [] (marshalOf p)
           (runStateSink yamlDoc userSink) (.json ⟨false, true, false, ""⟩) 30) := by
  simp only [Execute, hstyle]
  rfl

/-- As above with pretty output also requested (after raw): the encoder
resolves pretty true, raw true. -/
lemma execute_writer_json_raw_pretty_reduce {γ : Type} (eng : Engine)
    (yamlDoc : GoValue → String) (p : PipelineCfg) (hstyle : p.defaultJSONStyle = 0)
    (userSink : γ → GoValue → Except Err γ) (userInit : γ) (input : GoValue) :
    Execute eng yamlDoc p userSink userInit input
        [.withWriter .json, .withRawJSONOutput, .withPrettyJSONOutput] =
      (match marshalOf p input with
       | .error e => (.error (.conversionError input "jq-compatible" e), [])
       | .ok jsonData =>
         streamingProcess eng p.query (some 30) jsonData [] (marshalOf p)
           (runStateSink yamlDoc userSink) (.json ⟨true, true, false, ""⟩) 30) := by
  simp only [Execute, hstyle]
  rfl

/-- C6: For every Execute call with a JSON writer sink and raw output
enabled, every string result is written literally (no quotes, no
escaping, embedded newlines passed through) followed by a single
newline, and every non-string result is encoded as compact single-line
JSON — whether or not pretty output was also requested. -/
theorem c6_raw_json_output {γ : Type} (yamlDoc : GoValue → String) (p : PipelineCfg)
    (hstyle : p.defaultJSONStyle = 0) (hq : p.query ≠ "")
    (userSink : γ → GoValue → Except Err γ) (userInit : γ) (input : GoValue)
    (d : GoValue) (hconv : marshalOf p input = .ok d) (vs : List GoValue) :
    Execute (listEngine (vs.map .value)) yamlDoc p userSink userInit input
        [.withWriter .json, .withRawJSONOutput] =
      (.ok (.json ⟨false, true, false, rawRenderAll vs⟩), vs) ∧
    Execute (listEngine (vs.map .value)) yamlDoc p userSink userInit input
        [.withWriter .json, .withRawJSONOutput, .withPrettyJSONOutput] =
      (.ok (.json ⟨true, true, false, rawRenderAll vs⟩), vs) := by
  constructor
  · rw [execute_writer_json_raw_reduce _ yamlDoc p hstyle userSink userInit input, hconv]
    show streamingProcess _ p.query (some 30) d [] (marshalOf p)
        (runStateSink yamlDoc userSink) (.json ⟨false, true, false, ""⟩) 30 = _
    simp only [streamingProcess, if_neg hq]
    show streamLoop (runStateSink yamlDoc userSink) p.query 30 (vs.map .value)
        (.json ⟨false, true, false, ""⟩) = _
    rw [streamLoop_json, jsonEncodeMany_raw]
    rw [String.empty_append]
  · rw [execute_writer_json_raw_pretty_reduce _ yamlDoc p hstyle userSink userInit input, hconv]
    show streamingProcess _ p.query (some 30) d [] (marshalOf p)
        (runStateSink yamlDoc userSink) (.json ⟨true, true, false, ""⟩) 30 = _
    simp only [streamingProcess, if_neg hq]
    show streamLoop (runStateSink yamlDoc userSink) p.query 30 (vs.map .value)
        (.json ⟨true, true, false, ""⟩) = _
    rw [streamLoop_json, jsonEncodeMany_raw]
    rw [String.empty_append]

theorem c6_raw_json_output_witness :
    (({ query := "." } : PipelineCfg).defaultJSONStyle = 0) ∧ (("." : String) ≠ "") ∧
    marshalOf { query := "." } .gnil = .ok .gnil ∧
    Execute (listEngine [.value (.gstring "a\nb"), .value (.gmap (.cons "k" (.gint 7) .nil))])
        (fun _ => "") { query := "." } (fun (_ : Unit) _ => .ok ()) () .gnil
        [.withWriter .json, .withRawJSONOutput, .withPrettyJSONOutput] =
      (.ok (.json ⟨true, true, false, "a\nb\n\x7b\"k\":7\x7d\n"⟩),
       [.gstring "a\nb", .gmap (.cons "k" (.gint 7) .nil)]) :=
  ⟨rfl, by decide, rfl,
    ((c6_raw_json_output (fun _ => "") { query := "." } rfl (by decide)
        (fun (_ : Unit) _ => .ok ()) () .gnil .gnil rfl
        [.gstring "a\nb", .gmap (.cons "k" (.gint 7) .nil)]).2)⟩

lemma foldl_applyExecOpt_timeout (opts : List ExecOpt)
    (h : ∀ t : Int, ExecOpt.withTimeout t ∉ opts) :
    ∀ c : ExecuteConfig, (List.foldl applyExecOpt c opts).timeout = c.timeout := by
  induction opts with
  | nil => intro c; rfl
  | cons o rest ih =>
    intro c
    rw [List.foldl_cons]
    have h1 : ∀ t : Int, ExecOpt.withTimeout t ∉ rest :=
      fun t ht => h t (List.mem_cons_of_mem _ ht)
    rw [ih h1]
    cases o with
    | withTimeout t => exact absurd (List.mem_cons_self _ _) (h t)
    | withEncoder => rfl
    | withWriter fmt => rfl
    | withVariables vs => rfl
    | withCallback => rfl
    | withCompactJSONOutput => rfl
    | withPrettyJSONOutput => rfl
    | withRawJSONOutput => rfl

/-- C8: For every Execute call, the timeout defaults to 30 time-units
when not set; a zero or negative configured timeout disables the
deadline entirely; and when the engine surfaces a deadline-exceeded
error as a result item, Execute returns a `TimeoutError` carrying the
configured duration rather than the engine's error. -/
theorem c8_timeout_behavior :
    (∀ (s : Nat) (opts : List ExecOpt), (∀ t : Int, ExecOpt.withTimeout t ∉ opts) →
      (resolveConfig s opts).timeout = 30) ∧
    (∀ c : ExecuteConfig, c.timeout ≤ 0 → deadlineOf c = none) ∧
    (∀ (γ : Type) (sink : γ → GoValue → Except Err γ) (q : String) (t : Int)
        (rest : List IterItem) (s : γ),
      streamLoop sink q t (.error .deadlineExceeded :: rest) s =
        (.error (.timeoutError t), [])) ∧
    (∀ (γ : Type) (yamlDoc : GoValue → String) (p : PipelineCfg), p.query ≠ "" →
      ∀ (userSink : γ → GoValue → Except Err γ) (userInit : γ) (input d : GoValue),
      marshalOf p input = .ok d → ∀ (t : Int) (rest : List IterItem),
      Execute (listEngine (.error .deadlineExceeded :: rest)) yamlDoc p userSink userInit
          input [.withCallback, .withTimeout t] = (.error (.timeoutError t), [])) := by
  refine ⟨?_, ?_, ?_, ?_⟩
  · intro s opts h
    rw [resolveConfig, foldl_applyExecOpt_timeout opts h]
    exact (initExecuteConfig_base s).2.2.2.2.1
  · intro c h
    unfold deadlineOf
    rw [if_neg (by omega)]
  · intro γ sink q t rest s
    exact streamLoop_deadline sink q t rest s
  · intro γ yamlDoc p hq userSink userInit input d hconv t rest
    rw [execute_callback_timeout_reduce, hconv]
    show streamingProcess _ p.query (if t > 0 then some t else none) d []
        (marshalOf p) (runStateSink yamlDoc userSink) (.user userInit) t = _
    simp only [streamingProcess, if_neg hq]
    show streamLoop (runStateSink yamlDoc userSink) p.query t
        (.error .deadlineExceeded :: rest) (.user userInit) = _
    exact streamLoop_deadline _ _ _ _ _

theorem c8_timeout_behavior_witness :
    (resolveConfig 0 [.withCallback]).timeout = 30 ∧
    deadlineOf { timeout := 0 } = none ∧
    streamLoop (fun (_ : Unit) _ => .ok ()) "." 7 [.error .deadlineExceeded] () =
      (.error (.timeoutError 7), []) ∧
    Execute (listEngine [.error .deadlineExceeded]) (fun _ => "") { query := "." }
        (fun (_ : Unit) _ => .ok ()) () .gnil [.withCallback, .withTimeout 5] =
      (.error (.timeoutError 5), []) :=
  ⟨c8_timeout_behavior.1 0 [.withCallback] (by intro t; simp),
   c8_timeout_behavior.2.1 { timeout := 0 } (by decide),
   c8_timeout_behavior.2.2.1 Unit (fun _ _ => .ok ()) "." 7 [] (),
   c8_timeout_behavior.2.2.2 Unit (fun _ => "") { query := "." } (by decide)
     (fun _ _ => .ok ()) () .gnil .gnil rfl 5 []⟩

lemma sinkFold_user {γ : Type} (yamlDoc : GoValue → String)
    (userSink : γ → GoValue → Except Err γ) :
    ∀ (vs : List GoValue) (s s2 : γ), sinkFold userSink s vs = .ok s2 →
    sinkFold (runStateSink yamlDoc userSink) (.user s) vs = .ok (.user s2) := by
  intro vs
  induction vs with
  | nil =>
    intro s s2 h
    simp only [sinkFold] at h
    cases h
    rfl
  | cons v tl ih =>
    intro s s2 h
    simp only [sinkFold] at h ⊢
    cases husv : userSink s v with
    | error e => rw [husv] at h; exact absurd h (by simp)
    | ok s3 =>
      rw [husv] at h
      have h2 : sinkFold userSink s3 tl = .ok s2 := h
      simp only [runStateSink, husv, Except.map]
      exact ih s3 s2 h2

/-- C1: For every Execute call in which the sink returns an error for
the i-th delivered item, Execute returns exactly that error value
unchanged, and no item after the i-th is pulled from the result sequence
or delivered to the sink: the delivered trace is exactly the first i
values, and the result does not depend on what follows the failing
item. -/
theorem c1_sink_error_stops_stream {γ : Type} (yamlDoc : GoValue → String)
    (p : PipelineCfg) (hq : p.query ≠ "") (userSink : γ → GoValue → Except Err γ)
    (userInit : γ) (input d : GoValue) (hconv : marshalOf p input = .ok d)
    (pre : List GoValue) (v : GoValue) (post : List GoValue) (s2 : γ) (e : Err)
    (hpre : sinkFold userSink userInit pre = .ok s2) (hfail : userSink s2 v = .error e) :
    Execute (listEngine ((pre ++ v :: post).map .value)) yamlDoc p userSink userInit input
        [.withCallback] = (.error e, pre ++ [v]) ∧
    Execute (listEngine ((pre ++ v :: post).map .value)) yamlDoc p userSink userInit input
        [.withCallback] =
      Execute (listEngine ((pre ++ [v]).map .value)) yamlDoc p userSink userInit input
        [.withCallback] := by
  have main : ∀ post2 : List GoValue,
      Execute (listEngine ((pre ++ v :: post2).map .value)) yamlDoc p userSink userInit
        input [.withCallback] = (.error e, pre ++ [v]) := by
    intro post2
    rw [execute_callback_reduce, hconv]
    show streamingProcess _ p.query (some 30) d [] (marshalOf p)
        (runStateSink yamlDoc userSink) (.user userInit) 30 = _
    simp only [streamingProcess, if_neg hq]
    show streamLoop (runStateSink yamlDoc userSink) p.query 30
        ((pre ++ v :: post2).map .value) (.user userInit) = _
    rw [List.map_append,
      streamLoop_ok_run (runStateSink yamlDoc userSink) p.query 30 pre
        (.user userInit) (.user s2) (sinkFold_user yamlDoc userSink pre userInit s2 hpre)]
    simp only [List.map_cons]
    rw [streamLoop_sink_error (runStateSink yamlDoc userSink) p.query 30 v
      (post2.map .value) (.user s2) e (by simp [runStateSink, hfail, Except.map])]
  exact ⟨main post, (main post).trans (main []).symm⟩

/-- A per-item callback over a counter that accepts the first two items
and rejects the third with an opaque error. -/
def failOnThird : Nat → GoValue → Except Err Nat :=
  fun n _ => if n = 2 then .error (.external 7) else .ok (n + 1)

theorem c1_sink_error_stops_stream_witness :
    (("." : String) ≠ "") ∧
    marshalOf { query := "." } .gnil = .ok .gnil ∧
    sinkFold failOnThird 0 [.gint 1, .gint 2] = .ok 2 ∧
    failOnThird 2 (.gint 3) = .error (.external 7) ∧
    Execute (listEngine ([.gint 1, .gint 2, .gint 3, .gint 4, .gint 5].map .value))
        (fun _ => "") { query := "." } failOnThird 0 .gnil [.withCallback] =
      (.error (.external 7), [.gint 1, .gint 2, .gint 3]) :=
  ⟨by decide, rfl, rfl, rfl,
    ((c1_sink_error_stops_stream (fun _ => "") { query := "." } (by decide) failOnThird 0
        .gnil .gnil rfl [.gint 1, .gint 2] (.gint 3) [.gint 4, .gint 5] 2 (.external 7)
        rfl rfl).1)⟩

lemma lookupAssoc_perm (k : String) :
    ∀ {l1 l2 : List (String × GoValue)}, l1.Perm l2 →
    (l1.map Prod.fst).Nodup → lookupAssoc k l1 = lookupAssoc k l2 := by
  intro l1 l2 h
  induction h with
  | nil => intro _; rfl
  | cons x h ih =>
    intro hnd
    obtain ⟨a, va⟩ := x
    simp only [lookupAssoc]
    split
    · rfl
    · exact ih (by simpa using (List.nodup_cons.mp (by simpa using hnd)).2)
  | swap x y l =>
    intro hnd
    obtain ⟨a, va⟩ := x
    obtain ⟨b, vb⟩ := y
    have hab : b ≠ a := by
      simp only [List.map_cons, List.nodup_cons, List.mem_cons] at hnd
      exact fun hh => hnd.1 (Or.inl hh)
    simp only [lookupAssoc]
    by_cases hb : b = k
    · rw [if_pos hb, if_neg (fun ha => hab (hb.trans ha.symm)), if_pos hb]
    · rw [if_neg hb]
      by_cases ha : a = k
      · rw [if_pos ha, if_pos ha]
      · rw [if_neg ha, if_neg ha, if_neg hb]
  | trans h1 h2 ih1 ih2 =>
    intro hnd
    have hndm := ((h1.map Prod.fst).nodup_iff).mp hnd
    exact (ih1 hnd).trans (ih2 hndm)

lemma convertVariablesLoop_map (marshal : GoValue → Except Err GoValue) :
    ∀ l : List (String × GoValue), (∀ kv ∈ l, ∃ w, marshal kv.2 = .ok w) →
    convertVariablesLoop marshal l =
      .ok (l.map (fun kv => (kv.1, (marshal kv.2).toOption.getD .gnil))) := by
  intro l
  induction l with
  | nil => intro _; rfl
  | cons kv tl ih =>
    intro h
    obtain ⟨k, v⟩ := kv
    obtain ⟨w, hw⟩ := h (k, v) (List.mem_cons_self _ _)
    simp only at hw
    simp only [convertVariablesLoop, hw]
    rw [ih (fun kv2 hkv2 => h kv2 (List.mem_cons_of_mem _ hkv2))]
    simp [hw, Except.toOption]

lemma jqVarNames_perm {l1 l2 : List (String × GoValue)} (h : l1.Perm l2) :
    jqVarNames l1 = jqVarNames l2 := by
  unfold jqVarNames
  rw [h.length_eq]
  split
  · refine List.eq_of_perm_of_sorted ?_ (List.sorted_insertionSort _ _)
      (List.sorted_insertionSort _ _)
    exact ((List.perm_insertionSort _ _).trans (h.map _)).trans
      (List.perm_insertionSort _ _).symm
  · rfl

lemma jqVarValues_perm {l1 l2 : List (String × GoValue)} (h : l1.Perm l2)
    (hnd : (l1.map Prod.fst).Nodup) : jqVarValues l1 = jqVarValues l2 := by
  unfold jqVarValues
  rw [jqVarNames_perm h]
  refine List.map_congr_left ?_
  intro name _
  rw [lookupAssoc_perm (name.drop 1) h hnd]

lemma runQueryWithVariables_perm (eng : Engine) (q : String) (dl : Option Int)
    (data : GoValue) {l1 l2 : List (String × GoValue)} (h : l1.Perm l2)
    (hnd : (l1.map Prod.fst).Nodup) :
    runQueryWithVariables eng q dl data l1 = runQueryWithVariables eng q dl data l2 := by
  unfold runQueryWithVariables
  rw [jqVarNames_perm h, jqVarValues_perm h hnd]

/-- C3: For every Execute call with a non-empty query and a variables
map, the variable names are dollar-prefixed, sorted lexicographically,
and the query is compiled against that sorted name list with values in
matching order, so the call is deterministic in the map's iteration
order: two runs on permuted association lists (same name-to-value map,
distinct names, convertible values) give equal results, and the compiled
name list is sorted. -/
theorem c3_variable_order_determinism {γ : Type} (eng : Engine)
    (yamlDoc : GoValue → String) (p : PipelineCfg) (hq : p.query ≠ "")
    (userSink : γ → GoValue → Except Err γ) (userInit : γ) (input : GoValue)
    (l1 l2 : List (String × GoValue)) (hperm : l1.Perm l2)
    (hnd : (l1.map Prod.fst).Nodup)
    (hok : ∀ kv ∈ l1, ∃ w, marshalOf p kv.2 = .ok w) :
    Execute eng yamlDoc p userSink userInit input [.withCallback, .withVariables l1] =
      Execute eng yamlDoc p userSink userInit input [.withCallback, .withVariables l2] ∧
    List.Sorted (· ≤ ·) (jqVarNames l1) := by
  constructor
  · rw [execute_callback_vars_reduce, execute_callback_vars_reduce]
    cases hm : marshalOf p input with
    | error e => rfl
    | ok d =>
      show streamingProcess eng p.query (some 30) d l1 (marshalOf p)
          (runStateSink yamlDoc userSink) (.user userInit) 30 =
        streamingProcess eng p.query (some 30) d l2 (marshalOf p)
          (runStateSink yamlDoc userSink) (.user userInit) 30
      simp only [streamingProcess, if_neg hq]
      cases l1 with
      | nil =>
        have h2 : l2 = [] := List.Perm.eq_nil hperm.symm
        rw [h2]
      | cons x xs =>
        cases l2 with
        | nil => exact absurd hperm.length_eq (by simp)
        | cons y ys =>
          have hok2 : ∀ kv ∈ y :: ys, ∃ w, marshalOf p kv.2 = .ok w :=
            fun kv hkv => hok kv (hperm.mem_iff.mpr hkv)
          have hcperm : ((x :: xs).map
              (fun kv => (kv.1, ((marshalOf p) kv.2).toOption.getD .gnil))).Perm
                ((y :: ys).map
                  (fun kv => (kv.1, ((marshalOf p) kv.2).toOption.getD .gnil))) :=
            hperm.map _
          have hcnd : (((x :: xs).map
              (fun kv => (kv.1, ((marshalOf p) kv.2).toOption.getD .gnil))).map
                Prod.fst).Nodup := by
            rw [List.map_map]
            exact hnd
          have hrw := runQueryWithVariables_perm eng p.query (some 30) d hcperm hcnd
          rw [show convertVariables (marshalOf p) (x :: xs) =
              convertVariablesLoop (marshalOf p) (x :: xs) from rfl,
            show convertVariables (marshalOf p) (y :: ys) =
              convertVariablesLoop (marshalOf p) (y :: ys) from rfl,
            convertVariablesLoop_map (marshalOf p) (x :: xs) hok,
            convertVariablesLoop_map (marshalOf p) (y :: ys) hok2]
          simp only [hrw]
  · unfold jqVarNames
    split
    · exact List.sorted_insertionSort _ _
    · exact List.sorted_nil

theorem c3_variable_order_determinism_witness :
    Execute (listEngine []) (fun _ => "") { query := "." } (fun (_ : Unit) _ => .ok ()) ()
        .gnil [.withCallback, .withVariables [("b", .gint 2), ("a", .gint 1)]] =
      Execute (listEngine []) (fun _ => "") { query := "." } (fun (_ : Unit) _ => .ok ()) ()
        .gnil [.withCallback, .withVariables [("a", .gint 1), ("b", .gint 2)]] ∧
    List.Sorted (· ≤ ·) (jqVarNames [("b", GoValue.gint 2), ("a", GoValue.gint 1)]) :=
  c3_variable_order_determinism (listEngine []) (fun _ => "") { query := "." } (by decide)
    (fun (_ : Unit) _ => .ok ()) () .gnil
    [("b", .gint 2), ("a", .gint 1)] [("a", .gint 1), ("b", .gint 2)]
    (List.Perm.swap ("a", GoValue.gint 1) ("b", GoValue.gint 2) []) (by decide)
    (by
      intro kv hkv
      rcases List.mem_cons.mp hkv with h | h2
      · subst h; exact ⟨.gint 2, rfl⟩
      · have h3 := List.mem_singleton.mp h2
        subst h3; exact ⟨.gint 1, rfl⟩)

/-- C2 as stated is false on the code: applying WithCompactJSONOutput
and then WithPrettyJSONOutput yields pretty (indented) output, not
compact output, so permuting the application order of the two style
options changes the bytes Execute writes.  Concretely, on the value
`[1]` with a JSON writer the two orders write `[\n  1\n]\n` and
`[1]\n`. -/
theorem c2_compact_pretty_counterexample :
    writtenBytes (Execute (listEngine []) (fun _ => "") {} (fun (_ : Unit) _ => .ok ()) ()
        (.glist (.cons (.gint 1) .nil))
        [.withWriter .json, .withCompactJSONOutput, .withPrettyJSONOutput]) = "[\n  1\n]\n" ∧
    writtenBytes (Execute (listEngine []) (fun _ => "") {} (fun (_ : Unit) _ => .ok ()) ()
        (.glist (.cons (.gint 1) .nil))
        [.withWriter .json, .withPrettyJSONOutput, .withCompactJSONOutput]) = "[1]\n" ∧
    writtenBytes (Execute (listEngine []) (fun _ => "") {} (fun (_ : Unit) _ => .ok ()) ()
        (.glist (.cons (.gint 1) .nil))
        [.withWriter .json, .withCompactJSONOutput, .withPrettyJSONOutput]) ≠
      writtenBytes (Execute (listEngine []) (fun _ => "") {} (fun (_ : Unit) _ => .ok ()) ()
        (.glist (.cons (.gint 1) .nil))
        [.withWriter .json, .withPrettyJSONOutput, .withCompactJSONOutput]) := by
  refine ⟨by decide, by decide, by decide⟩

/-- Execute with a JSON writer, raw, then compact, then pretty (pipeline
default style 0): the last style option wins, so pretty resolves true,
raw stays true. -/
lemma execute_writer_json_rcp_reduce {γ : Type} (eng : Engine) (yamlDoc : GoValue → String)
    (p : PipelineCfg) (hstyle : p.defaultJSONStyle = 0)
    (userSink : γ → GoValue → Except Err γ) (userInit : γ) (input : GoValue) :
    Execute eng yamlDoc p userSink userInit input
        [.withWriter .json, .withRawJSONOutput, .withCompactJSONOutput,
          .withPrettyJSONOutput] =
      (match marshalOf p input with
       | .error e => (.error (.conversionError input "jq-compatible" e), [])
       | .ok jsonData =>
         streamingProcess eng p.query (some 30) jsonData [] (marshalOf p)
           (runStateSink yamlDoc userSink) (.json ⟨true, true, false, ""⟩) 30) := by
  simp only [Execute, hstyle]
  rfl

/-- Execute with a JSON writer, raw, then pretty, then compact: the last
style option wins, so pretty resolves false, raw stays true. -/
lemma execute_writer_json_rpc_reduce {γ : Type} (eng : Engine) (yamlDoc : GoValue → String)
    (p : PipelineCfg) (hstyle : p.defaultJSONStyle = 0)
    (userSink : γ → GoValue → Except Err γ) (userInit : γ) (input : GoValue) :
    Execute eng yamlDoc p userSink userInit input
        [.withWriter .json, .withRawJSONOutput, .withPrettyJSONOutput,
          .withCompactJSONOutput] =
      (match marshalOf p input with
       | .error e => (.error (.conversionError input "jq-compatible" e), [])
       | .ok jsonData =>
         streamingProcess eng p.query (some 30) jsonData [] (marshalOf p)
           (runStateSink yamlDoc userSink) (.json ⟨false, true, false, ""⟩) 30) := by
  simp only [Execute, hstyle]
  rfl

lemma streamingProcess_json_raw_bytes {γ : Type} (yamlDoc : GoValue → String)
    (p : PipelineCfg) (hq : p.query ≠ "") (userSink : γ → GoValue → Except Err γ)
    (d : GoValue) (pretty : Bool) (vs : List GoValue) :
    streamingProcess (listEngine (vs.map .value)) p.query (some 30) d [] (marshalOf p)
        (runStateSink yamlDoc userSink) (.json ⟨pretty, true, false, ""⟩) 30 =
      (.ok (.json ⟨pretty, true, false, rawRenderAll vs⟩), vs) := by
  simp only [streamingProcess, if_neg hq]
  show streamLoop (runStateSink yamlDoc userSink) p.query 30 (vs.map .value)
      (.json ⟨pretty, true, false, ""⟩) = _
  rw [streamLoop_json, jsonEncodeMany_raw, String.empty_append]

/-- C2 amended: of WithCompactJSONOutput and WithPrettyJSONOutput, the
LAST option applied determines the style (each overwrites the shared
compact flag), so compact-then-pretty resolves to pretty output and
pretty-then-compact to compact output; and when WithRawJSONOutput is
also set, the bytes written are the raw rendering regardless of the
order of the compact/pretty options, so in that case permuting them does
not change the output. -/
theorem c2_style_last_option_wins :
    (∀ (s : Nat) (base : List ExecOpt),
      (resolveConfig s
          (base ++ [.withCompactJSONOutput, .withPrettyJSONOutput])).compactOutput = false ∧
      (resolveConfig s
          (base ++ [.withCompactJSONOutput, .withPrettyJSONOutput])).compactOutputSet = true ∧
      (resolveConfig s
          (base ++ [.withPrettyJSONOutput, .withCompactJSONOutput])).compactOutput = true ∧
      (resolveConfig s
          (base ++ [.withPrettyJSONOutput, .withCompactJSONOutput])).compactOutputSet
        = true) ∧
    (∀ (γ : Type) (yamlDoc : GoValue → String) (p : PipelineCfg), p.defaultJSONStyle = 0 →
      p.query ≠ "" → ∀ (userSink : γ → GoValue → Except Err γ) (userInit : γ)
      (input d : GoValue), marshalOf p input = .ok d → ∀ vs : List GoValue,
      writtenBytes (Execute (listEngine (vs.map .value)) yamlDoc p userSink userInit input
          [.withWriter .json, .withRawJSONOutput, .withCompactJSONOutput,
            .withPrettyJSONOutput]) = rawRenderAll vs ∧
      writtenBytes (Execute (listEngine (vs.map .value)) yamlDoc p userSink userInit input
          [.withWriter .json, .withRawJSONOutput, .withPrettyJSONOutput,
            .withCompactJSONOutput]) = rawRenderAll vs) := by
  constructor
  · intro s base
    refine ⟨?_, ?_, ?_, ?_⟩ <;> rw [resolveConfig, List.foldl_append] <;> rfl
  · intro γ yamlDoc p hstyle hq userSink userInit input d hconv vs
    constructor
    · rw [execute_writer_json_rcp_reduce _ yamlDoc p hstyle userSink userInit input, hconv]
      show writtenBytes (streamingProcess (listEngine (vs.map .value)) p.query (some 30) d
          [] (marshalOf p) (runStateSink yamlDoc userSink)
          (.json ⟨true, true, false, ""⟩) 30) = _
      rw [streamingProcess_json_raw_bytes yamlDoc p hq userSink d true vs]
      rfl
    · rw [execute_writer_json_rpc_reduce _ yamlDoc p hstyle userSink userInit input, hconv]
      show writtenBytes (streamingProcess (listEngine (vs.map .value)) p.query (some 30) d
          [] (marshalOf p) (runStateSink yamlDoc userSink)
          (.json ⟨false, true, false, ""⟩) 30) = _
      rw [streamingProcess_json_raw_bytes yamlDoc p hq userSink d false vs]
      rfl

theorem c2_style_last_option_wins_witness :
    (resolveConfig 0 [.withCompactJSONOutput, .withPrettyJSONOutput]).compactOutput = false ∧
    writtenBytes (Execute (listEngine [.value (.gstring "s"), .value (.gint 2)])
        (fun _ => "") { query := "." } (fun (_ : Unit) _ => .ok ()) () .gnil
        [.withWriter .json, .withRawJSONOutput, .withCompactJSONOutput,
          .withPrettyJSONOutput]) =
      rawRenderAll [.gstring "s", .gint 2] ∧
    writtenBytes (Execute (listEngine [.value (.gstring "s"), .value (.gint 2)])
        (fun _ => "") { query := "." } (fun (_ : Unit) _ => .ok ()) () .gnil
        [.withWriter .json, .withRawJSONOutput, .withPrettyJSONOutput,
          .withCompactJSONOutput]) =
      rawRenderAll [.gstring "s", .gint 2] :=
  ⟨(c2_style_last_option_wins.1 0 []).1,
    (c2_style_last_option_wins.2 Unit (fun _ => "") { query := "." } rfl (by decide)
      (fun _ _ => .ok ()) () .gnil .gnil rfl [.gstring "s", .gint 2]).1,
    (c2_style_last_option_wins.2 Unit (fun _ => "") { query := "." } rfl (by decide)
      (fun _ _ => .ok ()) () .gnil .gnil rfl [.gstring "s", .gint 2]).2⟩

theorem c10_empty_query_single_delivery_witness :
    (({} : PipelineCfg).query = "") ∧
    marshalOf {} (.gint 5) = .ok (.gint 5) ∧
    Execute (listEngine []) (fun _ => "") {} (fun (n : Nat) _ => .ok (n + 1)) 0 (.gint 5)
        [.withCallback, .withVariables [("bad", .gbad 9)]] =
      (.ok (.user 1), [.gint 5]) :=
  ⟨rfl, rfl,
    c10_empty_query_single_delivery (listEngine []) (fun _ => "") {} rfl
      (fun (n : Nat) _ => .ok (n + 1)) 0 (.gint 5) [("bad", .gbad 9)] (.gint 5) rfl⟩

end JQYaml
